import Mathlib

/-!
Verification of the LitigiMaker retrieval/validation core (`engine_backend.py`)
against its natural-language specification.

The embedding models Python strings as `List Char` (`Str`), Python dicts of the
fixed record shapes as Lean structures (a missing key is represented by the
value the source's `.get(...)` default produces: `none`, `[]`, or the empty
string), and Python's insertion-ordered dicts as association lists.
-/

namespace EngineBackend

/-- Python strings are modelled as lists of characters. -/
abbrev Str := List Char

/-- Conversion from Lean string literals to the model's string type. -/
def strL (s : String) : Str := s.toList

/-- Boolean substring test, modelling Python's `qn in h`. -/
def subOf (a b : Str) : Bool := decide (a <:+: b)

/-- Whitespace characters matched by Python's regex `\s` on `str`
(ASCII whitespace plus the Unicode whitespace characters). -/
def isPyWs (c : Char) : Bool :=
  c = ' ' || c = '\t' || c = '\n' || c = '\r' || c = '\x0b' || c = '\x0c' ||
  c = '\x1c' || c = '\x1d' || c = '\x1e' || c = '\x1f' || c = '\x85' ||
  c = '\xa0' || c = '\u1680' ||
  (0x2000 ≤ c.toNat && c.toNat ≤ 0x200a) ||
  c = '\u2028' || c = '\u2029' || c = '\u202f' || c = '\u205f' || c = '\u3000'

/-- Line-break characters recognized by Python's `str.splitlines`. -/
def isLineBreak (c : Char) : Bool :=
  c = '\n' || c = '\r' || c = '\x0b' || c = '\x0c' ||
  c = '\x1c' || c = '\x1d' || c = '\x1e' || c = '\x85' ||
  c = '\u2028' || c = '\u2029'

/-- Characters of the token character class `[֐-׿A-Za-z0-9]` used by
`re.split(r"[^֐-׿A-Za-z0-9]+", ...)` in `_simple_retrieve_snippets`:
Hebrew letters, Latin letters, digits. -/
def isTokChar (c : Char) : Bool :=
  (0x0590 ≤ c.toNat && c.toNat ≤ 0x05ff) ||
  ('A' ≤ c && c ≤ 'Z') || ('a' ≤ c && c ≤ 'z') || ('0' ≤ c && c ≤ '9')

/-- Helper for `splitRuns`: `acc` is the current (reversed) run of characters
satisfying `p`; maximal nonempty runs are emitted in order. -/
def splitRunsAux (p : Char → Bool) : Str → Str → List Str
  | [], acc => if acc = [] then [] else [acc.reverse]
  | c :: rest, acc =>
    if p c then splitRunsAux p rest (c :: acc)
    else if acc = [] then splitRunsAux p rest []
    else acc.reverse :: splitRunsAux p rest []

/-- The maximal nonempty runs of characters satisfying `p`, in order.  With
`p = isTokChar` this models `re.split(r"[^֐-׿A-Za-z0-9]+", s)` with
the empty fragments dropped (the source drops them by its `len(t) >= 3`
filter); with `p = fun c => !(isPyWs c)` it gives the whitespace-separated
words of `s`. -/
def splitRuns (p : Char → Bool) (l : Str) : List Str := splitRunsAux p l []

/-- Join word lists with single spaces. -/
def joinSpace : List Str → Str
  | [] => []
  | [w] => w
  | w :: ws => w ++ ' ' :: joinSpace ws

/-- `_normalize_ws(s) = re.sub(r"\s+", " ", (s or "").strip())`: trimming and
collapsing every whitespace run to a single space is the same as joining the
whitespace-separated words of `s` with single spaces. -/
def _normalize_ws (s : Str) : Str := joinSpace (splitRuns (fun c => !(isPyWs c)) s)

/-- Collapse Windows line endings: each `\r\n` pair becomes a single `\n`,
so that splitting on single line-break characters afterwards matches Python's
`str.splitlines`, which treats `\r\n` as one break. -/
def fixCRLF : Str → Str
  | '\r' :: '\n' :: rest => '\n' :: fixCRLF rest
  | c :: rest => c :: fixCRLF rest
  | [] => []

/-- Helper for `splitLines`; `acc` is the current (reversed) line. -/
def splitLinesAux : Str → Str → List Str
  | [], acc => if acc = [] then [] else [acc.reverse]
  | c :: rest, acc =>
    if isLineBreak c then acc.reverse :: splitLinesAux rest []
    else splitLinesAux rest (c :: acc)

/-- Python's `txt.splitlines()`: split at line-break characters (a `\r\n` pair
counts as one break); no trailing empty line is produced. -/
def splitLines (l : Str) : List Str := splitLinesAux (fixCRLF l) []

/-- The token set the source builds from a string: maximal runs of the token
character class, kept only when their length is at least 3, collected as a set
(`set([t for t in re.split(r"[^֐-׿A-Za-z0-9]+", s) if len(t) >= 3])`). -/
def pyTokens (s : Str) : Finset Str :=
  ((splitRuns isTokChar s).filter (fun w => 3 ≤ w.length)).toFinset

/-- The query-token set of `_simple_retrieve_snippets`:
`q = _normalize_ws(query)` then tokenize. -/
def queryTokens (query : Str) : Finset Str := pyTokens (_normalize_ws query)

/-- A `sources[0]` record of a topic-index item (`{doc_id, page, quote}`);
`doc_id` is `none` when the key is missing. -/
structure SourceRef where
  docId : Option Str
  page : Option Int
  quote : Str
deriving DecidableEq, Repr

/-- A topic-index item as consumed by `_simple_retrieve_snippets`
(`{topic, subtopics, keywords, summary, sources}`); a missing list key is the
empty list, a missing `topic` is `none`, a missing `summary` the empty string. -/
structure TopicItem where
  topic : Option Str
  subtopics : List Str
  keywords : List Str
  summary : Str
  sources : List SourceRef
deriving DecidableEq, Repr

/-- A snippet record as built by `_simple_retrieve_snippets`:
`{doc_id, page, quote, location, full_text}`. -/
structure Snippet where
  docId : Str
  page : Option Int
  quote : Str
  location : Str
  fullText : Str
deriving DecidableEq, Repr

/-- The parts of a course profile the functions under verification read:
`knowledge_brain.topic_index`, `raw_docs.knowledge` (an insertion-ordered dict,
modelled as an association list), and `style_brain.solutions_bank.solutions`
(its entries are opaque here, kept as their `answer_text`). -/
structure CourseProfile where
  topicIndex : List TopicItem
  rawKnowledge : List (Str × Str)
  solutions : List Str
deriving DecidableEq, Repr

/-- The token bag of a topic-index item: tokens of the normalized keywords,
normalized subtopics, and the normalized topic (when nonempty), each split with
the same character class and `len >= 3` filter. -/
def itemBag (item : TopicItem) : Finset Str :=
  let topic := _normalize_ws (item.topic.getD [])
  let strs := (item.keywords.filter (fun x => x ≠ [])).map _normalize_ws
    ++ (item.subtopics.filter (fun x => x ≠ [])).map _normalize_ws
    ++ (if topic = [] then [] else [topic])
  (strs.map pyTokens).foldr (· ∪ ·) ∅

/-- The score of a topic-index item:
`overlap = len(q_tokens.intersection(bag))`. -/
def itemOverlap (qT : Finset Str) (item : TopicItem) : Nat :=
  (qT ∩ itemBag item).card

/-- The snippet record built for a scored topic-index item. -/
def mkTopicSnippet (item : TopicItem) : Snippet :=
  let src0 := item.sources.head?
  { docId := match src0 with
      | none => strL "K?"
      | some s => s.docId.getD (strL "K?")
    page := src0.bind (fun s => s.page)
    quote := match src0 with
      | none => []
      | some s => s.quote
    location := strL "topic: " ++ item.topic.getD []
      ++ (if item.subtopics ≠ [] then
            strL " / subtopics: " ++ List.intercalate (strL ", ") item.subtopics
          else [])
    fullText := item.summary ++ strL " " ++ List.intercalate (strL " ") item.keywords }

/-- The `scored` list of `_simple_retrieve_snippets`: each topic-index item
with a positive overlap, paired with its overlap, in original order. -/
def topicScored (qT : Finset Str) (items : List TopicItem) : List (Nat × Snippet) :=
  items.filterMap (fun item =>
    let overlap := itemOverlap qT item
    if overlap = 0 then none else some (overlap, mkTopicSnippet item))

/-- Stable descending insertion by `key`: `x` is placed before the first
element whose key does not exceed `key x`, so earlier elements win ties. -/
def insDesc {α : Type} (key : α → Nat) (x : α) : List α → List α
  | [] => [x]
  | y :: ys => if key x < key y then y :: insDesc key x ys else x :: y :: ys

/-- Stable descending sort by `key`, modelling Python's
`scored.sort(key=lambda x: x[0], reverse=True)` (a stable sort). -/
def sortDesc {α : Type} (key : α → Nat) (l : List α) : List α :=
  l.foldr (insDesc key) []

/-- The best-scoring long line of a raw document, as in the fallback loop of
`_simple_retrieve_snippets`: lines whose normalized form is shorter than 25
characters are skipped, and the first line strictly improving the running best
score wins. Returns `(best_line, best_score)`, initialized to `("", 0)`. -/
def bestLineStep (qT : Finset Str) (best : Str × Nat) (ln : Str) : Str × Nat :=
  let lnN := _normalize_ws ln
  if lnN.length < 25 then best
  else
    let ov := (qT ∩ pyTokens lnN).card
    if best.2 < ov then (lnN, ov) else best

/-- The fold over the document's lines with `bestLineStep`, starting from
`("", 0)`. -/
def bestLine (qT : Finset Str) (txt : Str) : Str × Nat :=
  (splitLines txt).foldl (bestLineStep qT) ([], 0)

/-- The fallback snippet built from a raw knowledge document's best line. -/
def mkFallbackSnippet (docId : Str) (lnN : Str) : Snippet :=
  { docId := docId, page := none, quote := lnN.take 180,
    location := strL "raw_text_match", fullText := lnN }

/-- The fallback loop of `_simple_retrieve_snippets` over `raw_docs.knowledge`:
skip empty documents, append at most one snippet per document (its best long
line, when it scores positively), and stop once `k` snippets have been
collected (`len0` counts the snippets collected so far). -/
def fallbackLoop (qT : Finset Str) (k : Nat) (len0 : Nat) : List (Str × Str) → List Snippet
  | [] => []
  | (docId, txt) :: rest =>
    if txt = [] then fallbackLoop qT k len0 rest
    else
      let bl := bestLine qT txt
      if 0 < bl.2 ∧ bl.1 ≠ [] then
        let sn := mkFallbackSnippet docId bl.1
        if k ≤ len0 + 1 then [sn] else sn :: fallbackLoop qT k (len0 + 1) rest
      else fallbackLoop qT k len0 rest

/-- `_simple_retrieve_snippets(course_profile, query, k)`: score the topic
index by query-token overlap, sort descending (stable), keep the first `k`;
if that yields nothing, fall back to the best-scoring long line of each raw
knowledge document. -/
def _simple_retrieve_snippets (profile : CourseProfile) (query : Str) (k : Nat) : List Snippet :=
  let qT := queryTokens query
  let scored := topicScored qT profile.topicIndex
  let snippets := ((sortDesc Prod.fst scored).take k).map Prod.snd
  if snippets = [] then fallbackLoop qT k 0 profile.rawKnowledge else snippets

/-- An evidence record of a diagnostic (`{doc_id, page, quote, location}`);
`invalidQuote` models the `invalid_quote` key, absent = `false`. -/
structure Evidence where
  docId : Str
  page : Option Int
  quote : Str
  location : Str
  invalidQuote : Bool
deriving DecidableEq, Repr

/-- A citation-shaped record (`{doc_id, quote, location}`), used for assistant
citations and for `review_plan.supporting_quotes`. -/
structure Citation where
  docId : Str
  quote : Str
  location : Str
  invalidQuote : Bool
deriving DecidableEq, Repr

/-- A diagnostic record of a trainer result; the fields the validation pass
never reads are kept to state the frame conditions. -/
structure Diagnostic where
  category : Str
  errorType : Str
  symptomInAnswer : Str
  whyWrong : Str
  correctRuleOrTerm : Str
  fixRewriteSuggestion : Str
  severity : Option Str
  evidence : List Evidence
deriving DecidableEq, Repr

/-- The `assistant_answer` object of a trainer result. -/
structure AssistantAnswer where
  answer : Str
  citations : List Citation
deriving DecidableEq, Repr

/-- The `review_plan` object of a trainer result. -/
structure ReviewPlan where
  recommendedTopics : List Str
  searchHints : List Str
  supportingQuotes : List Citation
deriving DecidableEq, Repr

/-- A trainer result as touched by `_validate_quotes_in_result`: the pass
reads and rewrites `diagnostics`, `assistant_answer.citations` and
`review_plan.supporting_quotes`, and the remaining fields are carried along. -/
structure TrainerResult where
  mode : Str
  scoreTotal : Option Int
  diagnostics : List Diagnostic
  improvedAnswer : Str
  sharpeningParagraph : Str
  assistantAnswer : Option AssistantAnswer
  reviewPlan : Option ReviewPlan
deriving DecidableEq, Repr

/-- The haystacks of `_validate_quotes_in_result`: for each retrieved snippet,
the normalized `full_text` and the normalized `quote`. -/
def haystacksOf (snips : List Snippet) : List Str :=
  snips.flatMap (fun sn => [_normalize_ws sn.fullText, _normalize_ws sn.quote])

/-- `_quote_ok(q)`: an empty normalized quote is accepted; otherwise the
normalized quote must be a substring of some nonempty haystack
(`any(qn in h for h in haystacks if h)`). -/
def quoteOk (haystacks : List Str) (q : Str) : Bool :=
  let qn := _normalize_ws q
  if qn = [] then true else haystacks.any (fun h => h ≠ [] && subOf qn h)

/-- Whether the pass treats a quote as invalid: the raw quote is truthy
(nonempty) and `_quote_ok` fails. -/
def quoteBad (haystacks : List Str) (q : Str) : Bool :=
  q ≠ [] && !(quoteOk haystacks q)

/-- One severity downgrade step: `high → medium`, `medium → low`, anything
else (including a missing severity) unchanged. -/
def downgradeSeverity : Option Str → Option Str
  | some s =>
    if s = strL "high" then some (strL "medium")
    else if s = strL "medium" then some (strL "low")
    else some s
  | none => none

/-- The per-evidence step of the validation loop: an invalid quote is tagged
`invalid_quote=true` and the running severity is downgraded one step. -/
def stepEv (hay : List Str) (acc : List Evidence × Option Str) (ev : Evidence) :
    List Evidence × Option Str :=
  if quoteBad hay ev.quote then
    (acc.1 ++ [{ ev with invalidQuote := true }], downgradeSeverity acc.2)
  else (acc.1 ++ [ev], acc.2)

/-- The validation pass applied to one diagnostic: walk its evidence list,
tagging invalid quotes and downgrading the severity once per invalid quote. -/
def processDiag (hay : List Str) (d : Diagnostic) : Diagnostic :=
  let r := d.evidence.foldl (stepEv hay) ([], d.severity)
  { d with evidence := r.1, severity := r.2 }

/-- Tagging for citation-shaped records (no severity involved). -/
def tagCitation (hay : List Str) (c : Citation) : Citation :=
  if quoteBad hay c.quote then { c with invalidQuote := true } else c

/-- `_validate_quotes_in_result(trainer_result, retrieved_snippets)`. -/
def _validate_quotes_in_result (tr : TrainerResult) (snips : List Snippet) : TrainerResult :=
  let hay := haystacksOf snips
  { tr with
    diagnostics := tr.diagnostics.map (processDiag hay)
    assistantAnswer := tr.assistantAnswer.map (fun aa =>
      { aa with citations := aa.citations.map (tagCitation hay) })
    reviewPlan := tr.reviewPlan.map (fun rp =>
      { rp with supportingQuotes := rp.supportingQuotes.map (tagCitation hay) }) }

/-- The engine bundle state the graded functions read and write:
`instances.active_course_profile` (falsy = `none`) and
`instances.last_trainer_result`. -/
structure Bundle where
  activeCourseProfile : Option CourseProfile
  lastTrainerResult : Option TrainerResult
deriving DecidableEq, Repr

/-- The `ValueError`s the API functions raise before any model call. -/
inductive EngineError where
  | badMode
  | noProfile
  | noSolutions
  | missingApiKey
deriving DecidableEq, Repr

/-- The external world of the API functions: whether an API key is available
(`_get_client` raises without one) and the remote model, an opaque function
from the request payload to a parsed trainer result. -/
structure Env where
  apiKey : Option Str
  gradeCall : Str → Str → Str → CourseProfile → List Snippet → TrainerResult
  retryCall : Str → Str → CourseProfile → List Snippet → TrainerResult
  assistCall : Str → List Snippet → TrainerResult

/-- `grade_answer(bundle, student_answer=..., question_text=..., mode=...)`:
validate the mode, require an active course profile, build the client, retrieve
snippets for `question_text + "\n" + student_answer` with `k=6`, call the
model, validate quotes, store and return the result.  The returned pair is
(result-or-error, final bundle state). -/
def grade_answer (env : Env) (bundle : Bundle) (student_answer : Str)
    (question_text : Option Str) (mode : Str) :
    Except EngineError TrainerResult × Bundle :=
  if mode ≠ strL "coach" ∧ mode ≠ strL "examiner" then (.error .badMode, bundle)
  else
    match bundle.activeCourseProfile with
    | none => (.error .noProfile, bundle)
    | some profile =>
      match env.apiKey with
      | none => (.error .missingApiKey, bundle)
      | some _ =>
        let query := question_text.getD [] ++ '\n' :: student_answer
        let retrieved := _simple_retrieve_snippets profile query 6
        let tr := env.gradeCall mode (question_text.getD []) student_answer profile retrieved
        let tr := _validate_quotes_in_result tr retrieved
        (.ok tr, { bundle with lastTrainerResult := some tr })

/-- `grade_exam_retry(bundle, student_answer=..., question_text=...)`: require
an active course profile and a nonempty solutions bank, then retrieve with
`k=7`, call the model, validate quotes, store and return the result. -/
def grade_exam_retry (env : Env) (bundle : Bundle) (student_answer : Str)
    (question_text : Option Str) :
    Except EngineError TrainerResult × Bundle :=
  match bundle.activeCourseProfile with
  | none => (.error .noProfile, bundle)
  | some profile =>
    if profile.solutions = [] then (.error .noSolutions, bundle)
    else
      match env.apiKey with
      | none => (.error .missingApiKey, bundle)
      | some _ =>
        let query := question_text.getD [] ++ '\n' :: student_answer
        let retrieved := _simple_retrieve_snippets profile query 7
        let tr := env.retryCall (question_text.getD []) student_answer profile retrieved
        let tr := _validate_quotes_in_result tr retrieved
        (.ok tr, { bundle with lastTrainerResult := some tr })

/-- `assistant_answer(bundle, question=...)`: require an active course profile,
retrieve with `k=6`, call the model, wrap the reply as a trainer result of mode
`assistant`, validate quotes, store and return it. -/
def assistant_answer (env : Env) (bundle : Bundle) (question : Str) :
    Except EngineError TrainerResult × Bundle :=
  match bundle.activeCourseProfile with
  | none => (.error .noProfile, bundle)
  | some profile =>
    match env.apiKey with
    | none => (.error .missingApiKey, bundle)
    | some _ =>
      let retrieved := _simple_retrieve_snippets profile question 6
      let obj := env.assistCall question retrieved
      let tr : TrainerResult :=
        { mode := strL "assistant", scoreTotal := none, diagnostics := [],
          improvedAnswer := [], sharpeningParagraph := [],
          assistantAnswer := obj.assistantAnswer, reviewPlan := none }
      let tr := _validate_quotes_in_result tr retrieved
      (.ok tr, { bundle with lastTrainerResult := some tr })

/-!
### The chunker, modelled from the spec

The chunker described in spec §4.2 (and referenced by the claims about
chunking) is not present in the provided source files; only the retrieval and
validation code is.  The definitions below are therefore modelled from the
spec's words rather than from source code.
-/

/-- Modelled from the spec: the chunker of §4.2, which is missing from the
provided sources.  "an ordered, finite ... sequence of chunks covering the
whole input, where consecutive chunks overlap by the given overlap length
except for the final chunk, which may be shorter": each chunk takes `size`
characters and the scan cursor advances by `size - overlap`; the guard
`size ≤ overlap` (malformed parameters) yields no chunks here and is rejected
by `chunkTextChecked`. -/
def chunkTextFuel (size overlap : Nat) : Nat → Str → List Str
  | _, [] => []
  | 0, _ => []
  | fuel + 1, t =>
    if size ≤ overlap then []
    else t.take size :: chunkTextFuel size overlap fuel (t.drop (size - overlap))

/-- Modelled from the spec: the chunker itself, `chunkTextFuel` with enough
fuel (the scan cursor advances by at least one character per step, so
`t.length` steps suffice). -/
def chunkText (size overlap : Nat) (t : Str) : List Str :=
  chunkTextFuel size overlap t.length t

/-- Modelled from the spec: the chunker's fail-fast parameter validation of
§7 — "malformed parameters (non-positive chunk size, overlap ≥ size ...) —
fails fast with a descriptive rejection". -/
def chunkTextChecked (size overlap : Nat) (t : Str) : Except Str (List Str) :=
  if size = 0 then .error (strL "chunk size must be a positive integer")
  else if size ≤ overlap then .error (strL "overlap must be smaller than the chunk size")
  else .ok (chunkText size overlap t)

/-- Concatenation of a chunk sequence with the overlaps removed: the first
chunk in full, every later chunk without its first `overlap` characters. -/
def joinOverlap (overlap : Nat) : List Str → Str
  | [] => []
  | c :: cs => c ++ (cs.map (fun x => x.drop overlap)).flatten

/-!
### Definitions taken from the spec's words, for comparison with the source

`tokensSpec` and `scoreSpec` follow the spec sentences of §4.3 ("lowercase
tokens of minimum length 2, matching a permissive character class that
includes the target alphabet's letters, digits, and apostrophes"; "score =
(count of query tokens found as substrings of the chunk text) / (number of
distinct query tokens)").  They exist only to be compared with the source's
`pyTokens` / `itemOverlap`.
-/

/-- The spec's token character class: the source's class plus apostrophes. -/
def isTokCharSpec (c : Char) : Bool := isTokChar c || c = Char.ofNat 39

/-- Tokenizer following the spec's words: lowercase tokens of minimum
length 2 over letters, digits and apostrophes. -/
def tokensSpec (s : Str) : Finset Str :=
  (((splitRuns isTokCharSpec s).map (fun w => w.map Char.toLower)).filter
    (fun w => 2 ≤ w.length)).toFinset

/-- Score following the spec's words: the fraction of distinct query tokens
that occur as substrings of the chunk's text. -/
def scoreSpec (qT : Finset Str) (chunkText : Str) : ℚ :=
  ((qT.filter (fun t => t <:+: chunkText)).card : ℚ) / (qT.card : ℚ)

/-!
### Lemmas about the stable descending sort
-/

theorem length_insDesc {α : Type} (key : α → Nat) (x : α) (l : List α) :
    (insDesc key x l).length = l.length + 1 := by
  induction l with
  | nil => rfl
  | cons y ys ih =>
    simp only [insDesc]
    split
    · simp [ih]
    · simp

theorem length_sortDesc {α : Type} (key : α → Nat) (l : List α) :
    (sortDesc key l).length = l.length := by
  induction l with
  | nil => rfl
  | cons x xs ih => simp [sortDesc, List.foldr_cons, length_insDesc, ← ih]

theorem mem_insDesc {α : Type} (key : α → Nat) (x : α) (l : List α) (z : α) :
    z ∈ insDesc key x l ↔ z = x ∨ z ∈ l := by
  induction l with
  | nil => simp [insDesc]
  | cons y ys ih =>
    simp only [insDesc]
    split
    · simp [ih]; tauto
    · simp

theorem mem_sortDesc {α : Type} (key : α → Nat) (l : List α) (z : α) :
    z ∈ sortDesc key l ↔ z ∈ l := by
  induction l with
  | nil => simp [sortDesc]
  | cons x xs ih =>
    simp only [sortDesc, List.foldr_cons] at *
    rw [mem_insDesc, ih]
    simp

theorem sorted_insDesc {α : Type} (key : α → Nat) (x : α) (l : List α)
    (h : l.Sorted (fun a b => key b ≤ key a)) :
    (insDesc key x l).Sorted (fun a b => key b ≤ key a) := by
  induction l with
  | nil => simp [insDesc]
  | cons y ys ih =>
    simp only [insDesc]
    rw [List.sorted_cons] at h
    split
    · rename_i hlt
      rw [List.sorted_cons]
      refine ⟨fun b hb => ?_, ih h.2⟩
      rw [mem_insDesc] at hb
      rcases hb with rfl | hb
      · exact Nat.le_of_lt hlt
      · exact h.1 b hb
    · rename_i hge
      rw [List.sorted_cons]
      refine ⟨fun b hb => ?_, by rw [List.sorted_cons]; exact h⟩
      simp at hb
      rcases hb with rfl | hb
      · exact Nat.le_of_not_lt hge
      · exact Nat.le_trans (h.1 b hb) (Nat.le_of_not_lt hge)

/-- The stable descending sort is sorted: keys never increase along it. -/
theorem sorted_sortDesc {α : Type} (key : α → Nat) (l : List α) :
    (sortDesc key l).Sorted (fun a b => key b ≤ key a) := by
  induction l with
  | nil => simp [sortDesc]
  | cons x xs ih => exact sorted_insDesc key x _ ih

theorem filter_insDesc {α : Type} (key : α → Nat) (x : α) (l : List α) (v : Nat) :
    (insDesc key x l).filter (fun z => key z = v) =
      (if key x = v then [x] else []) ++ l.filter (fun z => key z = v) := by
  induction l with
  | nil =>
    simp only [insDesc]
    split <;> simp_all
  | cons y ys ih =>
    simp only [insDesc]
    split
    · rename_i hlt
      by_cases hy : key y = v
      · by_cases hx : key x = v
        · omega
        · simp [List.filter_cons, hy, hx] at *
          exact ih
      · simp [List.filter_cons, hy, ih]
    · simp only [List.filter_cons]
      split <;> simp_all

/-- Stability of the sort: among the elements of any fixed key, the sorted
list preserves the original order. -/
theorem filter_sortDesc {α : Type} (key : α → Nat) (l : List α) (v : Nat) :
    (sortDesc key l).filter (fun z => key z = v) = l.filter (fun z => key z = v) := by
  induction l with
  | nil => rfl
  | cons x xs ih =>
    simp only [sortDesc, List.foldr_cons] at *
    rw [filter_insDesc, ih, List.filter_cons]
    split <;> simp_all

/-!
### Lemmas about runs, whitespace normalization and line splitting
-/

theorem splitRunsAux_sep (p : Char → Bool) (c : Char) (hc : p c = false) (b : Str) :
    ∀ (a acc : Str), splitRunsAux p (a ++ c :: b) acc =
      splitRunsAux p a acc ++ splitRuns p b := by
  intro a
  induction a with
  | nil =>
    intro acc
    simp only [List.nil_append, splitRunsAux, hc, Bool.false_eq_true, if_false, splitRuns]
    by_cases hacc : acc = [] <;> simp [hacc]
  | cons d a' ih =>
    intro acc
    simp only [List.cons_append, splitRunsAux]
    by_cases hd : p d
    · simp [hd, ih]
    · simp only [hd, Bool.false_eq_true, if_false]
      by_cases hacc : acc = [] <;> simp [hacc, ih]

/-- Every emitted run is nonempty and consists of characters satisfying `p`. -/
theorem splitRunsAux_sound (p : Char → Bool) :
    ∀ (l acc : Str), (∀ x ∈ acc, p x = true) →
      ∀ w ∈ splitRunsAux p l acc, w ≠ [] ∧ ∀ x ∈ w, p x = true := by
  intro l
  induction l with
  | nil =>
    intro acc hacc w hw
    simp only [splitRunsAux] at hw
    by_cases h : acc = []
    · simp [h] at hw
    · rw [if_neg h, List.mem_singleton] at hw
      subst hw
      refine ⟨by simpa using h, fun x hx => hacc x (by simpa using hx)⟩
  | cons c rest ih =>
    intro acc hacc w hw
    simp only [splitRunsAux] at hw
    by_cases hc : p c
    · rw [if_pos hc] at hw
      have hacc2 : ∀ x ∈ c :: acc, p x = true := by
        intro x hx
        rcases List.mem_cons.mp hx with rfl | hx
        · exact hc
        · exact hacc x hx
      exact ih (c :: acc) hacc2 w hw
    · rw [if_neg hc] at hw
      by_cases hz : acc = []
      · rw [if_pos hz] at hw
        exact ih [] (by simp) w hw
      · rw [if_neg hz] at hw
        rcases List.mem_cons.mp hw with rfl | hw
        · refine ⟨by simpa using hz, fun x hx => hacc x (by simpa using hx)⟩
        · exact ih [] (by simp) w hw

theorem mem_splitRuns_sound (p : Char → Bool) (l : Str) (w : Str)
    (hw : w ∈ splitRuns p l) : w ≠ [] ∧ ∀ x ∈ w, p x = true :=
  splitRunsAux_sound p l [] (by simp) w hw

theorem joinSpace_cons_cons (w a : Str) (as : List Str) :
    joinSpace (w :: a :: as) = w ++ ' ' :: joinSpace (a :: as) := rfl

theorem joinSpace_prefix_append (y z : List Str) : joinSpace y <+: joinSpace (y ++ z) := by
  induction y with
  | nil => simp [joinSpace]
  | cons w y2 ih =>
    cases y2 with
    | nil =>
      cases z with
      | nil => simp
      | cons z0 zs =>
        refine ⟨' ' :: joinSpace (z0 :: zs), ?_⟩
        rw [List.cons_append, List.nil_append, joinSpace_cons_cons]
        simp [joinSpace]
    | cons w1 y1 =>
      rcases ih with ⟨t, ht⟩
      refine ⟨t, ?_⟩
      rw [List.cons_append, joinSpace_cons_cons]
      have h2 : joinSpace (w :: (w1 :: y1 ++ z)) = w ++ ' ' :: joinSpace (w1 :: y1 ++ z) := by
        rw [List.cons_append]
        exact joinSpace_cons_cons w w1 (y1 ++ z)
      rw [h2, ← ht]
      simp

theorem joinSpace_suffix_cons (w : Str) (ws : List Str) :
    joinSpace ws <:+ joinSpace (w :: ws) := by
  cases ws with
  | nil => exact ⟨joinSpace [w], by simp [joinSpace]⟩
  | cons a as => exact ⟨w ++ [' '], by rw [joinSpace_cons_cons]; simp⟩

theorem joinSpace_infix (x y z : List Str) : joinSpace y <:+: joinSpace (x ++ y ++ z) := by
  induction x with
  | nil =>
    simp only [List.nil_append]
    exact (joinSpace_prefix_append y z).isInfix
  | cons w x2 ih =>
    have hs : joinSpace (x2 ++ y ++ z) <:+: joinSpace (w :: (x2 ++ y ++ z)) :=
      (joinSpace_suffix_cons w (x2 ++ y ++ z)).isInfix
    have : (w :: x2) ++ y ++ z = w :: (x2 ++ y ++ z) := by simp
    rw [this]
    exact ih.trans hs

theorem isPyWs_of_isLineBreak (c : Char) (h : isLineBreak c = true) : isPyWs c = true := by
  simp only [isLineBreak, Bool.or_eq_true, decide_eq_true_eq] at h
  rcases h with ((((((((h | h) | h) | h) | h) | h) | h) | h) | h) | h <;>
    subst h <;> rfl

/-- A string is bounded by whitespace on the right: empty, or starting with a
whitespace character. -/
def wsBoundR (b : Str) : Prop := b = [] ∨ ∃ c b2, b = c :: b2 ∧ isPyWs c = true

/-- A nonempty string ending with a whitespace character. -/
def wsLast (a : Str) : Prop := ∃ a2 c, a = a2 ++ [c] ∧ isPyWs c = true

theorem splitLinesAux_decomp :
    ∀ (l acc : Str), ∀ ln ∈ splitLinesAux l acc,
      (∃ s b, ln = acc.reverse ++ s ∧ l = s ++ b ∧ wsBoundR b) ∨
      (∃ a b, l = a ++ ln ++ b ∧ wsLast a ∧ wsBoundR b) := by
  intro l
  induction l with
  | nil =>
    intro acc ln hln
    simp only [splitLinesAux] at hln
    by_cases hacc : acc = []
    · rw [if_pos hacc] at hln
      simp at hln
    · rw [if_neg hacc, List.mem_singleton] at hln
      subst hln
      exact Or.inl ⟨[], [], by simp, by simp, Or.inl rfl⟩
  | cons c rest ih =>
    intro acc ln hln
    simp only [splitLinesAux] at hln
    by_cases hbr : isLineBreak c
    · rw [if_pos hbr] at hln
      rcases List.mem_cons.mp hln with rfl | hln
      · exact Or.inl ⟨[], c :: rest, by simp, rfl,
          Or.inr ⟨c, rest, rfl, isPyWs_of_isLineBreak c hbr⟩⟩
      · rcases ih [] ln hln with ⟨s, b, hs, hrest, hb⟩ |
          ⟨a, b, hrest, ⟨a2, cw, ha2, hcw⟩, hb⟩
        · simp only [List.reverse_nil, List.nil_append] at hs
          subst hs
          refine Or.inr ⟨[c], b, ?_, ⟨[], c, rfl, isPyWs_of_isLineBreak c hbr⟩, hb⟩
          rw [hrest]
          rfl
        · subst ha2
          refine Or.inr ⟨c :: (a2 ++ [cw]), b, ?_, ⟨c :: a2, cw, by simp, hcw⟩, hb⟩
          rw [hrest]
          simp
    · rw [if_neg hbr] at hln
      rcases ih (c :: acc) ln hln with ⟨s, b, hs, hrest, hb⟩ |
        ⟨a, b, hrest, ⟨a2, cw, ha2, hcw⟩, hb⟩
      · refine Or.inl ⟨c :: s, b, ?_, by rw [hrest]; simp, hb⟩
        rw [hs]
        simp
      · subst ha2
        refine Or.inr ⟨c :: (a2 ++ [cw]), b, ?_, ⟨c :: a2, cw, by simp, hcw⟩, hb⟩
        rw [hrest]
        simp

/-- Every line produced by `splitLines` sits in the CRLF-normalized text
bounded by whitespace (line breaks or the ends of the text). -/
theorem mem_splitLines_decomp (txt ln : Str) (h : ln ∈ splitLines txt) :
    ∃ a b, fixCRLF txt = a ++ ln ++ b ∧ (a = [] ∨ wsLast a) ∧ wsBoundR b := by
  rcases splitLinesAux_decomp (fixCRLF txt) [] ln h with ⟨s, b, hs, hrest, hb⟩ |
    ⟨a, b, hrest, ha, hb⟩
  · simp only [List.reverse_nil, List.nil_append] at hs
    subst hs
    exact ⟨[], b, by simpa using hrest, Or.inl rfl, hb⟩
  · exact ⟨a, b, hrest, Or.inr ha, hb⟩

/-- Collapsing `\r\n` pairs does not change the runs of non-separator
characters, for any separator class containing `\r` and `\n`. -/
theorem splitRunsAux_fixCRLF (p : Char → Bool) (hr : p '\r' = false)
    (hn : p '\n' = false) :
    ∀ (l acc : Str), splitRunsAux p (fixCRLF l) acc = splitRunsAux p l acc := by
  intro l
  induction l using fixCRLF.induct with
  | case1 rest ih =>
    intro acc
    rw [fixCRLF.eq_1]
    have l1 : splitRunsAux p ('\n' :: fixCRLF rest) acc =
        if acc = [] then splitRunsAux p (fixCRLF rest) []
        else acc.reverse :: splitRunsAux p (fixCRLF rest) [] := by
      simp [splitRunsAux, hn]
    have l2 : splitRunsAux p ('\r' :: '\n' :: rest) acc =
        if acc = [] then splitRunsAux p ('\n' :: rest) []
        else acc.reverse :: splitRunsAux p ('\n' :: rest) [] := by
      simp [splitRunsAux, hr]
    have l3 : splitRunsAux p ('\n' :: rest) [] = splitRunsAux p rest [] := by
      simp [splitRunsAux, hn]
    rw [l1, l2, l3, ih []]
  | case2 c rest hne ih =>
    intro acc
    rw [fixCRLF.eq_2 c rest hne]
    by_cases hc : p c
    · show splitRunsAux p (c :: fixCRLF rest) acc = splitRunsAux p (c :: rest) acc
      simp only [splitRunsAux]
      rw [if_pos hc, if_pos hc, ih (c :: acc)]
    · have e1 : splitRunsAux p (c :: fixCRLF rest) acc =
          if acc = [] then splitRunsAux p (fixCRLF rest) []
          else acc.reverse :: splitRunsAux p (fixCRLF rest) [] := by
        simp [splitRunsAux, hc]
      have e2 : splitRunsAux p (c :: rest) acc =
          if acc = [] then splitRunsAux p rest []
          else acc.reverse :: splitRunsAux p rest [] := by
        simp [splitRunsAux, hc]
      rw [e1, e2, ih []]
  | case3 =>
    intro acc
    rfl

/-- Collapsing `\r\n` pairs does not change whitespace normalization. -/
theorem normWs_fixCRLF (l : Str) : _normalize_ws (fixCRLF l) = _normalize_ws l := by
  simp only [_normalize_ws, splitRuns]
  rw [splitRunsAux_fixCRLF _ (by decide) (by decide)]

theorem nonWs_runs_split (c : Char) (hc : isPyWs c = true) (a b : Str) :
    splitRuns (fun x => !(isPyWs x)) (a ++ c :: b) =
      splitRuns (fun x => !(isPyWs x)) a ++ splitRuns (fun x => !(isPyWs x)) b :=
  splitRunsAux_sep _ c (by simp [hc]) b a []

/-- The whitespace-normalization of any line of `txt` is a contiguous
substring of the whitespace-normalization of `txt`. -/
theorem normWs_infix_of_mem_splitLines (txt ln : Str) (h : ln ∈ splitLines txt) :
    _normalize_ws ln <:+: _normalize_ws txt := by
  rcases mem_splitLines_decomp txt ln h with ⟨a, b, htxt, ha, hb⟩
  rw [← normWs_fixCRLF txt, htxt]
  rcases ha with rfl | ⟨a2, ca, rfl, hca⟩
  · rcases hb with rfl | ⟨cb, b2, rfl, hcb⟩
    · simp only [List.nil_append, List.append_nil]
      exact List.infix_rfl
    · have he : ([] : Str) ++ ln ++ cb :: b2 = ln ++ cb :: b2 := by simp
      rw [he]
      simp only [_normalize_ws, nonWs_runs_split cb hcb ln b2]
      have hj := joinSpace_infix []
        (splitRuns (fun x => !(isPyWs x)) ln) (splitRuns (fun x => !(isPyWs x)) b2)
      simpa using hj
  · rcases hb with rfl | ⟨cb, b2, rfl, hcb⟩
    · have he : (a2 ++ [ca]) ++ ln ++ ([] : Str) = a2 ++ ca :: ln := by simp
      rw [he]
      simp only [_normalize_ws, nonWs_runs_split ca hca a2 ln]
      have hj := joinSpace_infix (splitRuns (fun x => !(isPyWs x)) a2)
        (splitRuns (fun x => !(isPyWs x)) ln) []
      simpa using hj
    · have he : (a2 ++ [ca]) ++ ln ++ cb :: b2 = a2 ++ ca :: (ln ++ cb :: b2) := by simp
      rw [he]
      simp only [_normalize_ws, nonWs_runs_split ca hca a2 (ln ++ cb :: b2),
        nonWs_runs_split cb hcb ln b2]
      have hj := joinSpace_infix (splitRuns (fun x => !(isPyWs x)) a2)
        (splitRuns (fun x => !(isPyWs x)) ln) (splitRuns (fun x => !(isPyWs x)) b2)
      simpa [List.append_assoc] using hj

/-!
### Lemmas about the fallback path of the retriever
-/

theorem foldl_bestLineStep_cases (qT : Finset Str) (ls : List Str) :
    ∀ b : Str × Nat, ls.foldl (bestLineStep qT) b = b ∨
      ∃ ln ∈ ls, (ls.foldl (bestLineStep qT) b).1 = _normalize_ws ln ∧
        25 ≤ (_normalize_ws ln).length := by
  induction ls with
  | nil => intro b; exact Or.inl rfl
  | cons ln ls ih =>
    intro b
    rw [List.foldl_cons]
    rcases ih (bestLineStep qT b ln) with heq | ⟨ln2, hln2, h1, h2⟩
    · rw [heq]
      by_cases hshort : (_normalize_ws ln).length < 25
      · have hstep : bestLineStep qT b ln = b := by
          simp only [bestLineStep]
          rw [if_pos hshort]
        rw [hstep]
        exact Or.inl rfl
      · by_cases himp : b.2 < (qT ∩ pyTokens (_normalize_ws ln)).card
        · have hstep : bestLineStep qT b ln =
              (_normalize_ws ln, (qT ∩ pyTokens (_normalize_ws ln)).card) := by
            simp only [bestLineStep]
            rw [if_neg hshort, if_pos himp]
          rw [hstep]
          exact Or.inr ⟨ln, List.mem_cons_self ln ls, rfl, Nat.le_of_not_lt hshort⟩
        · have hstep : bestLineStep qT b ln = b := by
            simp only [bestLineStep]
            rw [if_neg hshort, if_neg himp]
          rw [hstep]
          exact Or.inl rfl
    · exact Or.inr ⟨ln2, List.mem_cons_of_mem ln hln2, h1, h2⟩

/-- When the best line of a document has positive score, it is the
whitespace-normalization of an actual (long) line of the document. -/
theorem bestLine_provenance (qT : Finset Str) (txt : Str)
    (h : 0 < (bestLine qT txt).2) :
    ∃ ln ∈ splitLines txt, (bestLine qT txt).1 = _normalize_ws ln ∧
      25 ≤ (_normalize_ws ln).length := by
  rcases foldl_bestLineStep_cases qT (splitLines txt) ([], 0) with heq | hex
  · rw [bestLine] at h
    rw [heq] at h
    exact absurd h (by simp)
  · exact hex

theorem foldl_bestLineStep_zero (qT : Finset Str) (ls : List Str)
    (h : ∀ ln ∈ ls, (qT ∩ pyTokens (_normalize_ws ln)).card = 0) :
    ∀ b : Str × Nat, b.2 = 0 → (ls.foldl (bestLineStep qT) b).2 = 0 := by
  induction ls with
  | nil => intro b hb; exact hb
  | cons ln ls ih =>
    intro b hb
    rw [List.foldl_cons]
    have hstep : (bestLineStep qT b ln).2 = 0 := by
      simp only [bestLineStep]
      by_cases hshort : (_normalize_ws ln).length < 25
      · rw [if_pos hshort]; exact hb
      · rw [if_neg hshort]
        rw [h ln (List.mem_cons_self ln ls)]
        simp [hb]
    exact ih (fun l hl => h l (List.mem_cons_of_mem ln hl)) _ hstep

/-- If every long-enough line of a document scores 0 against the query tokens,
the document's best line scores 0. -/
theorem bestLine_zero (qT : Finset Str) (txt : Str)
    (h : ∀ ln ∈ splitLines txt, (qT ∩ pyTokens (_normalize_ws ln)).card = 0) :
    (bestLine qT txt).2 = 0 :=
  foldl_bestLineStep_zero qT (splitLines txt) h ([], 0) rfl

/-- Every snippet produced by the fallback loop comes from a nonempty raw
knowledge document whose best line scores positively, and is exactly the
fallback record of that best line. -/
theorem mem_fallbackLoop (qT : Finset Str) (k : Nat) :
    ∀ (raws : List (Str × Str)) (len0 : Nat) (sn : Snippet),
      sn ∈ fallbackLoop qT k len0 raws →
      ∃ dt ∈ raws, dt.2 ≠ [] ∧ 0 < (bestLine qT dt.2).2 ∧
        sn = mkFallbackSnippet dt.1 (bestLine qT dt.2).1 := by
  intro raws
  induction raws with
  | nil => intro len0 sn hsn; simp [fallbackLoop] at hsn
  | cons dt rest ih =>
    intro len0 sn hsn
    obtain ⟨docId, txt⟩ := dt
    simp only [fallbackLoop] at hsn
    by_cases hemp : txt = []
    · rw [if_pos hemp] at hsn
      rcases ih len0 sn hsn with ⟨dt2, hdt2, h⟩
      exact ⟨dt2, List.mem_cons_of_mem _ hdt2, h⟩
    · rw [if_neg hemp] at hsn
      by_cases hsc : 0 < (bestLine qT txt).2 ∧ (bestLine qT txt).1 ≠ []
      · rw [if_pos hsc] at hsn
        by_cases hk : k ≤ len0 + 1
        · rw [if_pos hk, List.mem_singleton] at hsn
          exact ⟨(docId, txt), List.mem_cons_self _ _, hemp, hsc.1, hsn⟩
        · rw [if_neg hk] at hsn
          rcases List.mem_cons.mp hsn with rfl | hsn
          · exact ⟨(docId, txt), List.mem_cons_self _ _, hemp, hsc.1, rfl⟩
          · rcases ih (len0 + 1) sn hsn with ⟨dt2, hdt2, h⟩
            exact ⟨dt2, List.mem_cons_of_mem _ hdt2, h⟩
      · rw [if_neg hsc] at hsn
        rcases ih len0 sn hsn with ⟨dt2, hdt2, h⟩
        exact ⟨dt2, List.mem_cons_of_mem _ hdt2, h⟩

theorem fallbackLoop_nil (qT : Finset Str) (k : Nat) :
    ∀ (raws : List (Str × Str)) (len0 : Nat),
      (∀ dt ∈ raws, (bestLine qT dt.2).2 = 0) →
      fallbackLoop qT k len0 raws = [] := by
  intro raws
  induction raws with
  | nil => intro len0 _; rfl
  | cons dt rest ih =>
    intro len0 h
    obtain ⟨docId, txt⟩ := dt
    simp only [fallbackLoop]
    by_cases hemp : txt = []
    · rw [if_pos hemp]
      exact ih len0 (fun d hd => h d (List.mem_cons_of_mem _ hd))
    · rw [if_neg hemp]
      have hz : (bestLine qT txt).2 = 0 := h (docId, txt) (List.mem_cons_self _ _)
      rw [if_neg (by rw [hz]; simp)]
      exact ih len0 (fun d hd => h d (List.mem_cons_of_mem _ hd))

theorem length_fallbackLoop (qT : Finset Str) (k : Nat) :
    ∀ (raws : List (Str × Str)) (len0 : Nat), len0 < k →
      (fallbackLoop qT k len0 raws).length ≤ k - len0 := by
  intro raws
  induction raws with
  | nil => intro len0 _; simp [fallbackLoop]
  | cons dt rest ih =>
    intro len0 hlt
    obtain ⟨docId, txt⟩ := dt
    simp only [fallbackLoop]
    by_cases hemp : txt = []
    · rw [if_pos hemp]; exact ih len0 hlt
    · rw [if_neg hemp]
      by_cases hsc : 0 < (bestLine qT txt).2 ∧ (bestLine qT txt).1 ≠ []
      · rw [if_pos hsc]
        by_cases hk : k ≤ len0 + 1
        · rw [if_pos hk]
          simp
          omega
        · rw [if_neg hk]
          have := ih (len0 + 1) (by omega)
          simp only [List.length_cons]
          omega
      · rw [if_neg hsc]; exact ih len0 hlt

theorem retrieve_eq_fallback (profile : CourseProfile) (query : Str) (k : Nat)
    (h : topicScored (queryTokens query) profile.topicIndex = []) :
    _simple_retrieve_snippets profile query k =
      fallbackLoop (queryTokens query) k 0 profile.rawKnowledge := by
  simp [_simple_retrieve_snippets, h, sortDesc]

/-!
### Lemmas about the spec-modelled chunker
-/

theorem chunkText_nil (S O : Nat) : chunkText S O [] = [] := rfl

theorem chunkTextFuel_nil_fuel (S O : Nat) (fuel : Nat) :
    chunkTextFuel S O fuel ([] : Str) = [] := by
  cases fuel <;> rfl

theorem chunkTextFuel_zero (S O : Nat) (t : Str) :
    chunkTextFuel S O 0 t = [] := by
  cases t <;> rfl

theorem chunkTextFuel_congr (S O : Nat) :
    ∀ (f1 f2 : Nat) (t : Str), t.length ≤ f1 → t.length ≤ f2 →
      chunkTextFuel S O f1 t = chunkTextFuel S O f2 t := by
  intro f1
  induction f1 with
  | zero =>
    intro f2 t h1 _
    have ht : t = [] := List.eq_nil_of_length_eq_zero (by omega)
    subst ht
    rw [chunkTextFuel_nil_fuel, chunkTextFuel_nil_fuel]
  | succ f1 ih =>
    intro f2 t h1 h2
    cases t with
    | nil => rw [chunkTextFuel_nil_fuel, chunkTextFuel_nil_fuel]
    | cons c rest =>
      cases f2 with
      | zero => simp at h2
      | succ f2 =>
        rw [chunkTextFuel.eq_3 S O _ f1 (by simp),
            chunkTextFuel.eq_3 S O _ f2 (by simp)]
        by_cases hso : S ≤ O
        · rw [if_pos hso, if_pos hso]
        · rw [if_neg hso, if_neg hso]
          have hOS : O < S := Nat.lt_of_not_le hso
          congr 1
          apply ih
          · rw [List.length_drop]
            simp only [List.length_cons] at h1 ⊢
            omega
          · rw [List.length_drop]
            simp only [List.length_cons] at h2 ⊢
            omega

/-- The unfolding equation of the chunker. -/
theorem chunkText_eq (S O : Nat) (t : Str) :
    chunkText S O t = if S ≤ O ∨ t = [] then []
      else t.take S :: chunkText S O (t.drop (S - O)) := by
  cases t with
  | nil => simp [chunkText_nil]
  | cons c rest =>
    by_cases hso : S ≤ O
    · rw [if_pos (Or.inl hso)]
      show chunkTextFuel S O (c :: rest).length (c :: rest) = []
      rw [List.length_cons, chunkTextFuel.eq_3 S O _ rest.length (by simp), if_pos hso]
    · rw [if_neg (by simp [hso])]
      show chunkTextFuel S O (c :: rest).length (c :: rest) = _
      rw [List.length_cons, chunkTextFuel.eq_3 S O _ rest.length (by simp), if_neg hso]
      congr 1
      apply chunkTextFuel_congr
      · rw [List.length_drop]
        simp only [List.length_cons]
        omega
      · exact Nat.le_refl _

theorem chunkTextFuel_drop_flatten (S O : Nat) (h : O < S) :
    ∀ (fuel : Nat) (U : Str), U.length ≤ fuel →
      ((chunkTextFuel S O fuel U).map (fun x => x.drop O)).flatten = U.drop O := by
  intro fuel
  induction fuel with
  | zero =>
    intro U hU
    have ht : U = [] := List.eq_nil_of_length_eq_zero (by omega)
    subst ht
    rw [chunkTextFuel_nil_fuel]
    simp
  | succ fuel ih =>
    intro U hU
    cases U with
    | nil =>
      rw [chunkTextFuel_nil_fuel]
      simp
    | cons c rest =>
      rw [chunkTextFuel.eq_3 S O _ fuel (by simp), if_neg (by omega : ¬ S ≤ O)]
      simp only [List.map_cons, List.flatten_cons]
      rw [ih _ (by rw [List.length_drop]; simp only [List.length_cons] at hU ⊢; omega)]
      have e1 : List.drop O (List.take S (c :: rest)) =
          List.take (S - O) (List.drop O (c :: rest)) := List.drop_take S O _
      have e2 : List.drop O (List.drop (S - O) (c :: rest)) =
          List.drop (S - O) (List.drop O (c :: rest)) := by
        rw [List.drop_drop, List.drop_drop, Nat.add_comm]
      rw [e1, e2, List.take_append_drop]

/-- Reconstruction: concatenating the chunks with the overlaps removed gives
back the input text. -/
theorem joinOverlap_chunkText (S O : Nat) (h : O < S) (t : Str) :
    joinOverlap O (chunkText S O t) = t := by
  by_cases ht : t = []
  · subst ht
    rfl
  · rw [chunkText_eq, if_neg (by push_neg; exact ⟨by omega, ht⟩)]
    simp only [joinOverlap, chunkText]
    rw [chunkTextFuel_drop_flatten S O h _ _ (Nat.le_refl _)]
    rw [List.drop_drop]
    have e : S - O + O = S := by omega
    rw [e]
    exact List.take_append_drop S t

theorem chunkTextFuel_length_mul (S O : Nat) (h : O < S) :
    ∀ (fuel : Nat) (t : Str), t.length ≤ fuel → t ≠ [] →
      (chunkTextFuel S O fuel t).length * (S - O) ≤ t.length + (S - O) - 1 := by
  intro fuel
  induction fuel with
  | zero =>
    intro t h1 h2
    exact absurd (List.eq_nil_of_length_eq_zero (by omega)) h2
  | succ fuel ih =>
    intro t h1 h2
    cases t with
    | nil => exact absurd rfl h2
    | cons c rest =>
      rw [chunkTextFuel.eq_3 S O _ fuel (by simp), if_neg (by omega : ¬ S ≤ O)]
      simp only [List.length_cons]
      by_cases hdrop : (c :: rest).drop (S - O) = []
      · rw [hdrop, chunkTextFuel_nil_fuel]
        simp only [List.length_nil, List.length_cons, Nat.zero_add, Nat.one_mul]
        omega
      · have hgt : S - O < (c :: rest).length := by
          by_contra hle
          exact hdrop (List.drop_eq_nil_of_le (by omega))
        have hrec := ih ((c :: rest).drop (S - O))
          (by rw [List.length_drop]; simp only [List.length_cons] at h1 ⊢; omega) hdrop
        rw [List.length_drop] at hrec
        rw [Nat.add_mul, Nat.one_mul]
        simp only [List.length_cons] at hgt hrec ⊢
        omega

/-- The chunk count is bounded by the ceiling of `len(t) / (size - overlap)`. -/
theorem length_chunkText_le (S O : Nat) (h : O < S) (t : Str) :
    (chunkText S O t).length ≤ (t.length + (S - O) - 1) / (S - O) := by
  by_cases ht : t = []
  · subst ht
    simp [chunkText_nil]
  · rw [Nat.le_div_iff_mul_le (by omega : 0 < S - O)]
    exact chunkTextFuel_length_mul S O h t.length t (Nat.le_refl _) ht

theorem chunkTextFuel_mem_infix (S O : Nat) :
    ∀ (fuel : Nat) (t : Str), ∀ c ∈ chunkTextFuel S O fuel t, c <:+: t := by
  intro fuel
  induction fuel with
  | zero =>
    intro t c hc
    rw [chunkTextFuel_zero] at hc
    simp at hc
  | succ fuel ih =>
    intro t c hc
    cases t with
    | nil =>
      rw [chunkTextFuel_nil_fuel] at hc
      simp at hc
    | cons ch rest =>
      rw [chunkTextFuel.eq_3 S O _ fuel (by simp)] at hc
      by_cases hso : S ≤ O
      · rw [if_pos hso] at hc
        simp at hc
      · rw [if_neg hso] at hc
        rcases List.mem_cons.mp hc with rfl | hc
        · exact (List.take_prefix S _).isInfix
        · exact (ih _ c hc).trans (List.drop_suffix (S - O) _).isInfix

/-- Every chunk is a contiguous substring of the input text. -/
theorem mem_chunkText_infix (S O : Nat) :
    ∀ t : Str, ∀ c ∈ chunkText S O t, c <:+: t :=
  fun t => chunkTextFuel_mem_infix S O t.length t

/-!
### Lemmas about the quote-validation pass
-/

/-- Evidence tagging viewed pointwise: invalid quotes get `invalid_quote=true`,
everything else is untouched. -/
def tagEv (hay : List Str) (ev : Evidence) : Evidence :=
  if quoteBad hay ev.quote then { ev with invalidQuote := true } else ev

/-- The number of invalid quotes among a diagnostic's evidence entries. -/
def badCount (hay : List Str) (evs : List Evidence) : Nat :=
  (evs.filter (fun ev => quoteBad hay ev.quote)).length

theorem foldl_stepEv (hay : List Str) (evs : List Evidence) :
    ∀ (acc : List Evidence) (sev : Option Str),
      evs.foldl (stepEv hay) (acc, sev) =
        (acc ++ evs.map (tagEv hay), downgradeSeverity^[badCount hay evs] sev) := by
  induction evs with
  | nil => intro acc sev; simp [badCount]
  | cons ev evs ih =>
    intro acc sev
    rw [List.foldl_cons]
    by_cases hbad : quoteBad hay ev.quote
    · have hstep : stepEv hay (acc, sev) ev =
          (acc ++ [{ ev with invalidQuote := true }], downgradeSeverity sev) := by
        simp [stepEv, hbad]
      rw [hstep, ih]
      have hbc : badCount hay (ev :: evs) = badCount hay evs + 1 := by
        simp [badCount, List.filter_cons, hbad]
      rw [hbc, Function.iterate_succ_apply]
      simp [tagEv, hbad]
    · have hstep : stepEv hay (acc, sev) ev = (acc ++ [ev], sev) := by
        simp [stepEv, hbad]
      rw [hstep, ih]
      have hbc : badCount hay (ev :: evs) = badCount hay evs := by
        simp [badCount, List.filter_cons, hbad]
      rw [hbc]
      simp [tagEv, hbad]

/-- The validation loop over one diagnostic, characterized without the fold:
each evidence entry is tagged pointwise and the severity is downgraded one
step per invalid quote. -/
theorem processDiag_eq (hay : List Str) (d : Diagnostic) :
    processDiag hay d =
      { d with evidence := d.evidence.map (tagEv hay),
               severity := downgradeSeverity^[badCount hay d.evidence] d.severity } := by
  simp only [processDiag, foldl_stepEv hay d.evidence [] d.severity]
  simp

/-!
### Lemmas about the retrieval paths
-/

theorem topicScored_nil (qT : Finset Str) (items : List TopicItem)
    (h : ∀ item ∈ items, itemOverlap qT item = 0) : topicScored qT items = [] := by
  rw [topicScored, List.filterMap_eq_nil_iff]
  intro item hitem
  simp [h item hitem]

theorem topicScored_pos (qT : Finset Str) (items : List TopicItem) :
    ∀ x ∈ topicScored qT items, 1 ≤ x.1 := by
  intro x hx
  rw [topicScored, List.mem_filterMap] at hx
  obtain ⟨item, _, hx⟩ := hx
  by_cases h0 : itemOverlap qT item = 0
  · simp [h0] at hx
  · rw [if_neg h0] at hx
    cases hx
    omega

/-- A query with no positively-scored topic item and no positively-scored raw
line retrieves nothing. -/
theorem retrieve_nil_of_zero (profile : CourseProfile) (query : Str) (k : Nat)
    (h1 : ∀ item ∈ profile.topicIndex, itemOverlap (queryTokens query) item = 0)
    (h2 : ∀ dt ∈ profile.rawKnowledge, (bestLine (queryTokens query) dt.2).2 = 0) :
    _simple_retrieve_snippets profile query k = [] := by
  rw [retrieve_eq_fallback profile query k (topicScored_nil _ _ h1)]
  exact fallbackLoop_nil _ _ _ 0 h2

/-- A query yielding no tokens retrieves nothing. -/
theorem retrieve_nil_of_no_tokens (profile : CourseProfile) (query : Str) (k : Nat)
    (h : queryTokens query = ∅) : _simple_retrieve_snippets profile query k = [] := by
  apply retrieve_nil_of_zero
  · intro item _
    simp [itemOverlap, h]
  · intro dt _
    apply bestLine_zero
    intro ln _
    simp [h]

theorem retrieve_length_le (profile : CourseProfile) (query : Str) (k : Nat)
    (hk : 1 ≤ k) : (_simple_retrieve_snippets profile query k).length ≤ k := by
  simp only [_simple_retrieve_snippets]
  split
  · calc (fallbackLoop (queryTokens query) k 0 profile.rawKnowledge).length
        ≤ k - 0 := length_fallbackLoop _ _ _ 0 (by omega)
      _ ≤ k := by omega
  · rw [List.length_map]
    exact List.length_take_le k _

/-- When some topic item scores positively and `k ≥ 1`, the retriever's result
is exactly the first `k` snippets of the stably descending-sorted scored list. -/
theorem retrieve_topic_path (profile : CourseProfile) (query : Str) (k : Nat)
    (hk : 1 ≤ k) (h : topicScored (queryTokens query) profile.topicIndex ≠ []) :
    _simple_retrieve_snippets profile query k =
      ((sortDesc Prod.fst (topicScored (queryTokens query) profile.topicIndex)).take k).map
        Prod.snd := by
  have hlen : 0 < (((sortDesc Prod.fst
      (topicScored (queryTokens query) profile.topicIndex)).take k).map Prod.snd).length := by
    rw [List.length_map, List.length_take, length_sortDesc]
    rw [Nat.lt_min]
    exact ⟨by omega, List.length_pos.mpr h⟩
  simp only [_simple_retrieve_snippets]
  rw [if_neg (by
    intro habs
    rw [habs] at hlen
    simp at hlen)]

/-!
### Concrete example data used by witnesses and counterexamples
-/

/-- A profile with no topic index and two raw knowledge documents: `K1`'s only
long line contains one query token, `K2`'s contains two. -/
def exProfileFallback : CourseProfile :=
  { topicIndex := [],
    rawKnowledge := [(strL "K1", strL "alpha xxxx yyyy zzzz wwww qqqq"),
                     (strL "K2", strL "alpha bravo xxxx yyyy zzzz www")],
    solutions := [] }

/-- The example query; its token set is `{alpha, bravo}`. -/
def exQuery : Str := strL "alpha bravo"

/-- A topic-index item whose bag contains the full example query token set. -/
def exItemFull : TopicItem :=
  { topic := some (strL "contract basics"), subtopics := [],
    keywords := [strL "alpha", strL "bravo"],
    summary := strL "alpha bravo", sources := [] }

/-- A profile whose topic index matches the example query. -/
def exProfileTopic : CourseProfile :=
  { topicIndex := [exItemFull], rawKnowledge := [], solutions := [] }

/-- A profile on which the query `nomatch` scores zero everywhere. -/
def exProfileZero : CourseProfile :=
  { topicIndex := [exItemFull],
    rawKnowledge := [(strL "K1", strL "alpha xxxx yyyy zzzz wwww qqqq")],
    solutions := [] }

/-- The empty course profile. -/
def exProfileEmpty : CourseProfile :=
  { topicIndex := [], rawKnowledge := [], solutions := [] }

/-- A topic item whose only keyword is the two-letter string `ab`. -/
def exItemAB : TopicItem :=
  { topic := none, subtopics := [], keywords := [strL "ab"],
    summary := strL "ab", sources := [] }

/-- A profile with `exItemAB` as its only topic item. -/
def exProfileAB : CourseProfile :=
  { topicIndex := [exItemAB], rawKnowledge := [], solutions := [] }

/-- An empty trainer result, used as the reply of the stub model calls. -/
def trEmpty : TrainerResult :=
  { mode := [], scoreTotal := none, diagnostics := [], improvedAnswer := [],
    sharpeningParagraph := [], assistantAnswer := none, reviewPlan := none }

/-- A stub environment: no API key, stub model calls. -/
def envEx : Env :=
  { apiKey := none, gradeCall := fun _ _ _ _ _ => trEmpty,
    retryCall := fun _ _ _ _ => trEmpty, assistCall := fun _ _ => trEmpty }

/-- A bundle with no active course profile. -/
def bundleNoProfile : Bundle :=
  { activeCourseProfile := none, lastTrainerResult := none }

/-- A bundle whose active course profile has an empty solutions bank. -/
def bundleNoSolutions : Bundle :=
  { activeCourseProfile := some exProfileFallback, lastTrainerResult := none }

/-- A trainer result with one high-severity diagnostic carrying two
unverifiable quotes and one empty quote. -/
def trExample : TrainerResult :=
  { mode := strL "coach", scoreTotal := some 80,
    diagnostics := [
      { category := strL "doctrine", errorType := strL "wrong_term",
        symptomInAnswer := strL "s", whyWrong := strL "w",
        correctRuleOrTerm := strL "c", fixRewriteSuggestion := strL "f",
        severity := some (strL "high"),
        evidence := [
          { docId := strL "K1", page := none, quote := strL "not there",
            location := [], invalidQuote := false },
          { docId := strL "K1", page := none, quote := strL "also missing",
            location := [], invalidQuote := false },
          { docId := strL "K1", page := none, quote := [],
            location := [], invalidQuote := false } ] } ],
    improvedAnswer := [], sharpeningParagraph := [],
    assistantAnswer := none, reviewPlan := none }

/-!
### Claim theorems
-/

/-- C1 (counterexample): the retriever does not always return results ordered
by descending score.  On a profile with an empty topic index and two raw
knowledge documents, the fallback path returns one best line per document in
document order; here the first returned snippet scores 1 and the second 2
against the query tokens, so the output is not sorted by descending score.
(The returned records also have shape `{doc_id, page, quote, location,
full_text}` with no `score` field, rather than the claimed
`{chunk_id, source_doc_id, doc_type, text, score}`.) -/
theorem claim_C1_counterexample :
    ((_simple_retrieve_snippets exProfileFallback exQuery 6).map
      (fun sn => ((queryTokens exQuery) ∩ pyTokens sn.fullText).card)) = [1, 2] ∧
    ¬ List.Sorted (fun a b => a ≥ b)
      ((_simple_retrieve_snippets exProfileFallback exQuery 6).map
        (fun sn => ((queryTokens exQuery) ∩ pyTokens sn.fullText).card)) := by
  constructor
  · decide
  · rw [show ((_simple_retrieve_snippets exProfileFallback exQuery 6).map
      (fun sn => ((queryTokens exQuery) ∩ pyTokens sn.fullText).card)) = [1, 2] from by decide]
    decide

/-- C1 (amended): for `k ≥ 1` the retriever returns at most `k` snippets; when
some topic-index item scores positively, the result is exactly the first `k`
entries of the scored list sorted stably by descending overlap (so ties keep
original order, by the filter characterization), every scored entry has a
positive score, and the sorted scores are descending.  (The fallback path,
taken when no topic item scores positively, is not globally score-sorted — see
the counterexample — and the returned records carry no score field.) -/
theorem claim_C1 :
    (∀ (profile : CourseProfile) (query : Str) (k : Nat), 1 ≤ k →
      (_simple_retrieve_snippets profile query k).length ≤ k) ∧
    (∀ (profile : CourseProfile) (query : Str) (k : Nat), 1 ≤ k →
      topicScored (queryTokens query) profile.topicIndex ≠ [] →
      _simple_retrieve_snippets profile query k =
        ((sortDesc Prod.fst (topicScored (queryTokens query) profile.topicIndex)).take k).map
          Prod.snd) ∧
    (∀ (qT : Finset Str) (items : List TopicItem),
      List.Sorted (fun a b => a ≥ b)
        ((sortDesc Prod.fst (topicScored qT items)).map Prod.fst)) ∧
    (∀ (qT : Finset Str) (items : List TopicItem) (v : Nat),
      (sortDesc Prod.fst (topicScored qT items)).filter (fun x => x.1 = v) =
        (topicScored qT items).filter (fun x => x.1 = v)) ∧
    (∀ (qT : Finset Str) (items : List TopicItem),
      ∀ x ∈ topicScored qT items, 1 ≤ x.1) := by
  refine ⟨retrieve_length_le, retrieve_topic_path, ?_, ?_, topicScored_pos⟩
  · intro qT items
    exact (List.pairwise_map).mpr (sorted_sortDesc Prod.fst (topicScored qT items))
  · intro qT items v
    exact filter_sortDesc Prod.fst (topicScored qT items) v

/-- C1 (witness): the amended claim evaluated on a concrete profile whose
topic index matches the query. -/
theorem claim_C1_witness :
    ((1 : Nat) ≤ 6 ∧ (_simple_retrieve_snippets exProfileTopic exQuery 6).length ≤ 6) ∧
    (topicScored (queryTokens exQuery) exProfileTopic.topicIndex ≠ [] ∧
      _simple_retrieve_snippets exProfileTopic exQuery 6 =
        ((sortDesc Prod.fst
          (topicScored (queryTokens exQuery) exProfileTopic.topicIndex)).take 6).map
          Prod.snd) :=
  ⟨⟨by omega, claim_C1.1 exProfileTopic exQuery 6 (by omega)⟩,
   ⟨by decide, claim_C1.2.1 exProfileTopic exQuery 6 (by omega) (by decide)⟩⟩

/-- C2 (counterexample): the code's score is the raw token-overlap count, not
a fraction of the query vocabulary.  For the query `alpha bravo` and a topic
item whose text contains both tokens, the code scores 2 while the claimed
formula gives 2/2 = 1.0. -/
theorem claim_C2_counterexample :
    (itemOverlap (queryTokens exQuery) exItemFull : ℚ) ≠
      scoreSpec (queryTokens exQuery) (mkTopicSnippet exItemFull).fullText ∧
    itemOverlap (queryTokens exQuery) exItemFull = 2 ∧
    scoreSpec (queryTokens exQuery) (mkTopicSnippet exItemFull).fullText = 1 := by
  have h1 : itemOverlap (queryTokens exQuery) exItemFull = 2 := by decide
  have h2 : scoreSpec (queryTokens exQuery) (mkTopicSnippet exItemFull).fullText = 1 := by
    rw [scoreSpec]
    rw [show ((queryTokens exQuery).filter
      (fun t => t <:+: (mkTopicSnippet exItemFull).fullText)).card = 2 from by decide]
    rw [show (queryTokens exQuery).card = 2 from by decide]
    norm_num
  refine ⟨?_, h1, h2⟩
  rw [h1, h2]
  norm_num

/-- C2 (amended): the lexical score of a topic item equals the number of
distinct query tokens occurring in the item's token bag (an unnormalized
count): it never exceeds the number of distinct query tokens, and when the bag
covers the full query token set the score is exactly that number (hence 1.0
only for one-token queries). -/
theorem claim_C2 :
    (∀ (qT : Finset Str) (item : TopicItem), itemOverlap qT item ≤ qT.card) ∧
    (∀ (qT : Finset Str) (item : TopicItem), qT ⊆ itemBag item →
      itemOverlap qT item = qT.card) := by
  constructor
  · intro qT item
    exact Finset.card_le_card (Finset.inter_subset_left)
  · intro qT item h
    rw [itemOverlap, Finset.inter_eq_left.mpr h]

/-- C2 (witness): the amended claim evaluated at a bag covering the query. -/
theorem claim_C2_witness :
    queryTokens exQuery ⊆ itemBag exItemFull ∧
    itemOverlap (queryTokens exQuery) exItemFull = (queryTokens exQuery).card :=
  ⟨by decide, claim_C2.2 (queryTokens exQuery) exItemFull (by decide)⟩

/-- C3 (counterexample): the tokenizer keeps only tokens of length at least 3
(not 2), does not lowercase, and its character class has no apostrophes; a
query that is a single length-2 token yields the empty token set, and a
query matching a chunk verbatim with only length-2 tokens retrieves nothing. -/
theorem claim_C3_counterexample :
    pyTokens (strL "ab") = ∅ ∧ tokensSpec (strL "ab") = {strL "ab"} ∧
    pyTokens (strL "ab") ≠ tokensSpec (strL "ab") ∧
    pyTokens (strL "ABC") = {strL "ABC"} ∧ tokensSpec (strL "ABC") = {strL "abc"} ∧
    pyTokens (strL "ABC") ≠ tokensSpec (strL "ABC") ∧
    _simple_retrieve_snippets exProfileAB (strL "ab") 6 = [] := by
  refine ⟨by decide, by decide, by decide, by decide, by decide, by decide, by decide⟩

/-- C3 (amended): the scorer's tokens are maximal runs of Hebrew letters,
Latin letters and digits of length at least 3, kept verbatim (no lowercasing,
no apostrophes); consequently, any query with no such token gives every chunk
score 0 and an empty retrieval result. -/
theorem claim_C3 :
    (∀ (s t : Str), t ∈ pyTokens s → 3 ≤ t.length ∧ ∀ c ∈ t, isTokChar c = true) ∧
    (∀ (profile : CourseProfile) (query : Str) (k : Nat),
      queryTokens query = ∅ → _simple_retrieve_snippets profile query k = []) := by
  constructor
  · intro s t ht
    rw [pyTokens, List.mem_toFinset, List.mem_filter] at ht
    obtain ⟨hmem, hlen⟩ := ht
    exact ⟨by simpa using hlen, (mem_splitRuns_sound isTokChar s t hmem).2⟩
  · intro profile query k h
    exact retrieve_nil_of_no_tokens profile query k h

/-- C3 (witness): the amended claim evaluated at a concrete token and at a
two-letter query. -/
theorem claim_C3_witness :
    ((strL "alpha") ∈ pyTokens (strL "alpha?!x") ∧
      3 ≤ (strL "alpha").length ∧ ∀ c ∈ strL "alpha", isTokChar c = true) ∧
    (queryTokens (strL "a b") = ∅ ∧
      _simple_retrieve_snippets exProfileFallback (strL "a b") 6 = []) :=
  ⟨⟨by decide, claim_C3.1 (strL "alpha?!x") (strL "alpha") (by decide)⟩,
   ⟨by decide, claim_C3.2 exProfileFallback (strL "a b") 6 (by decide)⟩⟩

/-- C4: the retriever is a total function (the embedding is a plain Lean
function, mirroring that the source retrieval loop raises no exception on
well-formed profiles); an empty corpus yields `[]`, and a corpus where every
topic item and every long raw line scores 0 also yields `[]`. -/
theorem claim_C4 :
    (∀ (profile : CourseProfile) (query : Str) (k : Nat),
      profile.topicIndex = [] → profile.rawKnowledge = [] →
      _simple_retrieve_snippets profile query k = []) ∧
    (∀ (profile : CourseProfile) (query : Str) (k : Nat),
      (∀ item ∈ profile.topicIndex, itemOverlap (queryTokens query) item = 0) →
      (∀ dt ∈ profile.rawKnowledge, ∀ ln ∈ splitLines dt.2,
        ((queryTokens query) ∩ pyTokens (_normalize_ws ln)).card = 0) →
      _simple_retrieve_snippets profile query k = []) := by
  constructor
  · intro profile query k h1 h2
    apply retrieve_nil_of_zero
    · rw [h1]
      intro item hitem
      simp at hitem
    · rw [h2]
      intro dt hdt
      simp at hdt
  · intro profile query k h1 h2
    apply retrieve_nil_of_zero profile query k h1
    intro dt hdt
    exact bestLine_zero _ _ (h2 dt hdt)

/-- C4 (witness): the no-match case evaluated on a concrete profile and an
unmatched query, and the empty-corpus case on the empty profile. -/
theorem claim_C4_witness :
    _simple_retrieve_snippets exProfileEmpty exQuery 6 = [] ∧
    ((∀ item ∈ exProfileZero.topicIndex,
        itemOverlap (queryTokens (strL "nomatch")) item = 0) ∧
      _simple_retrieve_snippets exProfileZero (strL "nomatch") 6 = []) :=
  ⟨claim_C4.1 exProfileEmpty exQuery 6 rfl rfl,
   ⟨by decide, claim_C4.2 exProfileZero (strL "nomatch") 6 (by decide) (by decide)⟩⟩

/-- C5 (counterexample): the retriever does not fail fast on an empty query;
it returns the empty result list as an ordinary value (the same retriever
returns results for a matching query, so `[]` is a no-match result, not a
rejection). -/
theorem claim_C5_counterexample :
    _simple_retrieve_snippets exProfileFallback (strL "") 6 = [] ∧
    _simple_retrieve_snippets exProfileFallback exQuery 6 ≠ [] := by
  exact ⟨by decide, by decide⟩

/-- C5 (amended): the chunker (modelled from the spec, as the chunker is not
in the provided sources) fails fast with a descriptive rejection on a
non-positive chunk size or an overlap at least the chunk size; the retriever,
however, does not reject an empty query — an empty query produces no tokens
and the retriever returns the empty result list. -/
theorem claim_C5 :
    (∀ (O : Nat) (t : Str), chunkTextChecked 0 O t =
      .error (strL "chunk size must be a positive integer")) ∧
    (∀ (S O : Nat) (t : Str), 0 < S → S ≤ O → chunkTextChecked S O t =
      .error (strL "overlap must be smaller than the chunk size")) ∧
    (∀ (profile : CourseProfile) (k : Nat),
      _simple_retrieve_snippets profile (strL "") k = []) := by
  refine ⟨fun O t => rfl, ?_, ?_⟩
  · intro S O t h1 h2
    rw [chunkTextChecked, if_neg (by omega), if_pos h2]
  · intro profile k
    exact retrieve_nil_of_no_tokens profile (strL "") k (by decide)

/-- C5 (witness): the amended claim evaluated at concrete parameters. -/
theorem claim_C5_witness :
    chunkTextChecked 0 3 (strL "abc") =
      .error (strL "chunk size must be a positive integer") ∧
    ((0 : Nat) < 3 ∧ (3 : Nat) ≤ 5 ∧ chunkTextChecked 3 5 (strL "abc") =
      .error (strL "overlap must be smaller than the chunk size")) ∧
    _simple_retrieve_snippets exProfileFallback (strL "") 6 = [] :=
  ⟨claim_C5.1 3 (strL "abc"),
   ⟨by omega, by omega, claim_C5.2.1 3 5 (strL "abc") (by omega) (by omega)⟩,
   claim_C5.2.2 exProfileFallback 6⟩

/-- C6: retrieval is deterministic — the embedding is a pure function of the
profile, the query and `k` (the source reads no global mutable state, consults
no randomness and no clock), so two calls on the same arguments return the
same ordered list. -/
theorem claim_C6 : ∀ (profile : CourseProfile) (query : Str) (k : Nat),
    _simple_retrieve_snippets profile query k =
      _simple_retrieve_snippets profile query k :=
  fun _ _ _ => rfl

/-- C7: the quote-validation pass tags each evidence or citation quote whose
raw text is nonempty and whose whitespace-normalized form is not a substring
of any retrieved snippet's (normalized) `full_text` or `quote` with
`invalid_quote=true`, and for each such evidence quote downgrades the
containing diagnostic's severity one step (`high → medium → low`, iterated
once per invalid quote); it deletes nothing (all three lists are mapped
entry-by-entry) and leaves every other field of the result, of each
diagnostic, and of each tagged record unchanged. -/
theorem claim_C7 (tr : TrainerResult) (snips : List Snippet) :
    ((_validate_quotes_in_result tr snips).mode = tr.mode ∧
      (_validate_quotes_in_result tr snips).scoreTotal = tr.scoreTotal ∧
      (_validate_quotes_in_result tr snips).improvedAnswer = tr.improvedAnswer ∧
      (_validate_quotes_in_result tr snips).sharpeningParagraph =
        tr.sharpeningParagraph) ∧
    ((_validate_quotes_in_result tr snips).diagnostics = tr.diagnostics.map (fun d =>
      { d with evidence := d.evidence.map (tagEv (haystacksOf snips)),
               severity := downgradeSeverity^[badCount (haystacksOf snips) d.evidence]
                 d.severity })) ∧
    ((_validate_quotes_in_result tr snips).diagnostics.length =
      tr.diagnostics.length) ∧
    ((_validate_quotes_in_result tr snips).assistantAnswer =
      tr.assistantAnswer.map (fun aa =>
        { aa with citations := aa.citations.map (tagCitation (haystacksOf snips)) })) ∧
    ((_validate_quotes_in_result tr snips).reviewPlan =
      tr.reviewPlan.map (fun rp =>
        { rp with supportingQuotes :=
            rp.supportingQuotes.map (tagCitation (haystacksOf snips)) })) ∧
    (∀ ev : Evidence,
      (tagEv (haystacksOf snips) ev).docId = ev.docId ∧
      (tagEv (haystacksOf snips) ev).page = ev.page ∧
      (tagEv (haystacksOf snips) ev).quote = ev.quote ∧
      (tagEv (haystacksOf snips) ev).location = ev.location ∧
      (tagEv (haystacksOf snips) ev).invalidQuote =
        (ev.invalidQuote || quoteBad (haystacksOf snips) ev.quote)) ∧
    (∀ c : Citation,
      (tagCitation (haystacksOf snips) c).docId = c.docId ∧
      (tagCitation (haystacksOf snips) c).quote = c.quote ∧
      (tagCitation (haystacksOf snips) c).location = c.location ∧
      (tagCitation (haystacksOf snips) c).invalidQuote =
        (c.invalidQuote || quoteBad (haystacksOf snips) c.quote)) := by
  refine ⟨⟨rfl, rfl, rfl, rfl⟩, ?_, ?_, rfl, rfl, ?_, ?_⟩
  · show tr.diagnostics.map (processDiag (haystacksOf snips)) = _
    rw [show processDiag (haystacksOf snips) = (fun d =>
      { d with evidence := d.evidence.map (tagEv (haystacksOf snips)),
               severity := downgradeSeverity^[badCount (haystacksOf snips) d.evidence]
                 d.severity }) from funext (processDiag_eq (haystacksOf snips))]
  · show (tr.diagnostics.map (processDiag (haystacksOf snips))).length = _
    rw [List.length_map]
  · intro ev
    by_cases hbad : quoteBad (haystacksOf snips) ev.quote
    · simp [tagEv, hbad]
    · simp [tagEv, hbad]
  · intro c
    by_cases hbad : quoteBad (haystacksOf snips) c.quote
    · simp [tagCitation, hbad]
    · simp [tagCitation, hbad]

/-- C7 (witness): the validation pass evaluated on a concrete result holding
one high-severity diagnostic with two unverifiable quotes and one empty quote,
against an empty snippet list. -/
theorem claim_C7_witness :
    (_validate_quotes_in_result trExample []).diagnostics =
      trExample.diagnostics.map (fun d =>
        { d with evidence := d.evidence.map (tagEv (haystacksOf [])),
                 severity := downgradeSeverity^[badCount (haystacksOf []) d.evidence]
                   d.severity }) ∧
    (_validate_quotes_in_result trExample []).diagnostics.map
      (fun d => (d.severity, d.evidence.map (fun ev => ev.invalidQuote))) =
      [(some (strL "low"), [true, true, false])] :=
  ⟨(claim_C7 trExample []).2.1, by decide⟩

/-- C8: every chunk produced by the (spec-modelled) chunker is a verbatim
contiguous substring of the chunked text (the chunker is applied to the
document's normalized text, so chunks are substrings of it); and every
fallback snippet the retriever produces has its `quote` (and `full_text`) a
verbatim substring of the whitespace-normalization of its source document's
raw text — the property that makes later quote verification against the
source sound. -/
theorem claim_C8 :
    (∀ (S O : Nat) (t : Str), ∀ c ∈ chunkText S O t, c <:+: t) ∧
    (∀ (profile : CourseProfile) (query : Str) (k : Nat),
      topicScored (queryTokens query) profile.topicIndex = [] →
      ∀ sn ∈ _simple_retrieve_snippets profile query k,
        ∃ dt ∈ profile.rawKnowledge, sn.docId = dt.1 ∧
          sn.quote <:+: _normalize_ws dt.2 ∧ sn.fullText <:+: _normalize_ws dt.2) := by
  constructor
  · intro S O t
    exact mem_chunkText_infix S O t
  · intro profile query k h sn hsn
    rw [retrieve_eq_fallback profile query k h] at hsn
    rcases mem_fallbackLoop (queryTokens query) k profile.rawKnowledge 0 sn hsn with
      ⟨dt, hdt, _, hpos, hsn_eq⟩
    rcases bestLine_provenance (queryTokens query) dt.2 hpos with ⟨ln, hln, hbl, _⟩
    have hinf : _normalize_ws ln <:+: _normalize_ws dt.2 :=
      normWs_infix_of_mem_splitLines dt.2 ln hln
    refine ⟨dt, hdt, ?_, ?_, ?_⟩
    · rw [hsn_eq]
      rfl
    · rw [hsn_eq]
      show (bestLine (queryTokens query) dt.2).1.take 180 <:+: _
      rw [hbl]
      exact ((List.take_prefix 180 (_normalize_ws ln)).isInfix).trans hinf
    · rw [hsn_eq]
      show (bestLine (queryTokens query) dt.2).1 <:+: _
      rw [hbl]
      exact hinf

/-- C8 (witness): the chunk part at a concrete chunk, and the fallback part on
a concrete fallback retrieval. -/
theorem claim_C8_witness :
    ((strL "abc") ∈ chunkText 3 1 (strL "abcde") ∧
      (strL "abc") <:+: (strL "abcde")) ∧
    (topicScored (queryTokens exQuery) exProfileFallback.topicIndex = [] ∧
      ∀ sn ∈ _simple_retrieve_snippets exProfileFallback exQuery 6,
        ∃ dt ∈ exProfileFallback.rawKnowledge, sn.docId = dt.1 ∧
          sn.quote <:+: _normalize_ws dt.2 ∧ sn.fullText <:+: _normalize_ws dt.2) :=
  ⟨⟨by decide, claim_C8.1 3 1 (strL "abcde") (strL "abc") (by decide)⟩,
   ⟨by decide, claim_C8.2 exProfileFallback exQuery 6 (by decide)⟩⟩

/-- C9 (spec-modelled): for any text, chunk size `S > O ≥ 0`, the chunker
terminates with a finite chunk list (it is a total function); concatenating
the chunks with the overlaps removed reconstructs the text exactly; the chunk
count is at most `⌈len(t) / (S - O)⌉`; and the empty text yields the empty
sequence. -/
theorem claim_C9 (S O : Nat) (h : O < S) (t : Str) :
    joinOverlap O (chunkText S O t) = t ∧
    (chunkText S O t).length ≤ (t.length + (S - O) - 1) / (S - O) ∧
    chunkText S O [] = [] :=
  ⟨joinOverlap_chunkText S O h t, length_chunkText_le S O h t, chunkText_nil S O⟩

/-- C9 (witness): chunking `abcdef` with size 3 and overlap 1. -/
theorem claim_C9_witness :
    (1 : Nat) < 3 ∧
    joinOverlap 1 (chunkText 3 1 (strL "abcdef")) = strL "abcdef" ∧
    (chunkText 3 1 (strL "abcdef")).length ≤ ((strL "abcdef").length + (3 - 1) - 1) / (3 - 1) ∧
    chunkText 3 1 [] = [] :=
  ⟨by omega, claim_C9 3 1 (by omega) (strL "abcdef")⟩

/-- C10: `grade_answer` rejects a mode other than `coach`/`examiner`;
`grade_answer`, `grade_exam_retry` and `assistant_answer` reject a bundle with
no active course profile, and `grade_exam_retry` additionally rejects an empty
solutions bank; each rejection is independent of the environment (API key and
model responses), i.e. happens before any external call, and returns the
bundle unchanged. -/
theorem claim_C10 :
    (∀ (env : Env) (b : Bundle) (sa : Str) (qt : Option Str) (mode : Str),
      mode ≠ strL "coach" → mode ≠ strL "examiner" →
      grade_answer env b sa qt mode = (.error .badMode, b)) ∧
    (∀ (env : Env) (b : Bundle) (sa : Str) (qt : Option Str) (mode : Str),
      (mode = strL "coach" ∨ mode = strL "examiner") →
      b.activeCourseProfile = none →
      grade_answer env b sa qt mode = (.error .noProfile, b)) ∧
    (∀ (env : Env) (b : Bundle) (sa : Str) (qt : Option Str),
      b.activeCourseProfile = none →
      grade_exam_retry env b sa qt = (.error .noProfile, b)) ∧
    (∀ (env : Env) (b : Bundle) (sa : Str) (qt : Option Str) (p : CourseProfile),
      b.activeCourseProfile = some p → p.solutions = [] →
      grade_exam_retry env b sa qt = (.error .noSolutions, b)) ∧
    (∀ (env : Env) (b : Bundle) (q : Str),
      b.activeCourseProfile = none →
      assistant_answer env b q = (.error .noProfile, b)) := by
  refine ⟨?_, ?_, ?_, ?_, ?_⟩
  · intro env b sa qt mode h1 h2
    rw [grade_answer, if_pos ⟨h1, h2⟩]
  · intro env b sa qt mode hm hb
    rw [grade_answer, if_neg (by
      intro habs
      rcases hm with rfl | rfl
      · exact habs.1 rfl
      · exact habs.2 rfl), hb]
  · intro env b sa qt hb
    rw [grade_exam_retry, hb]
  · intro env b sa qt p hb hs
    rw [grade_exam_retry, hb]
    simp only [if_pos hs]
  · intro env b q hb
    rw [assistant_answer, hb]

/-- C10 (witness): the five rejection cases evaluated at concrete bundles and
a stub environment. -/
theorem claim_C10_witness :
    grade_answer envEx bundleNoSolutions [] none (strL "bogus") =
      (.error .badMode, bundleNoSolutions) ∧
    grade_answer envEx bundleNoProfile [] none (strL "coach") =
      (.error .noProfile, bundleNoProfile) ∧
    grade_exam_retry envEx bundleNoProfile [] none =
      (.error .noProfile, bundleNoProfile) ∧
    grade_exam_retry envEx bundleNoSolutions [] none =
      (.error .noSolutions, bundleNoSolutions) ∧
    assistant_answer envEx bundleNoProfile [] =
      (.error .noProfile, bundleNoProfile) :=
  ⟨claim_C10.1 envEx bundleNoSolutions [] none (strL "bogus") (by decide) (by decide),
   claim_C10.2.1 envEx bundleNoProfile [] none (strL "coach") (Or.inl rfl) rfl,
   claim_C10.2.2.1 envEx bundleNoProfile [] none rfl,
   claim_C10.2.2.2.1 envEx bundleNoSolutions [] none exProfileFallback rfl rfl,
   claim_C10.2.2.2.2 envEx bundleNoProfile [] rfl⟩

end EngineBackend
